import Mathlib

/-!
Shallow embedding of the RustPython JIT instruction-translation core
(jit/src/instructions.rs): the FunctionCompiler that turns a flat
bytecode instruction stream plus a label map into a control-flow graph
of cranelift-style typed instructions, simulating the operand stack and
inferring the signature.

The cranelift FunctionBuilder is the external collaborator; we model the
slice of its interface the core uses: block creation, an insertion
point, appending instructions (with the usual distinction between
terminators and ordinary instructions), variable declare/def/use (the
internal SSA/phi construction of the builder is abstracted as an
environment from variable to its current value id), and the function
signature's return list.  SSA value handles are modelled as Nats handed
out by a fresh counter.
-/

/-- Association-list lookup, modelling HashMap::get. -/
def assocLookup {α β : Type} [DecidableEq α] : List (α × β) → α → Option β
  | [], _ => none
  | (k, v) :: rest, key => if k = key then some v else assocLookup rest key

/-- Association-list insert-or-replace, modelling HashMap::insert. -/
def assocInsert {α β : Type} [DecidableEq α] : List (α × β) → α → β → List (α × β)
  | [], key, val => [(key, val)]
  | (k, v) :: rest, key, val =>
    if k = key then (key, val) :: rest else (k, v) :: assocInsert rest key val

/-- JitType from jit/src/lib.rs: the two supported value kinds. -/
inductive JitType
  | Int
  | Float
  deriving DecidableEq, Repr

/-- Cranelift-level types produced by JitType::to_cranelift (I64 / F64). -/
inductive ClifType
  | I64
  | F64
  deriving DecidableEq, Repr

/-- JitType::to_cranelift. -/
def JitType.to_cranelift : JitType → ClifType
  | .Int => .I64
  | .Float => .F64

/-- The two error kinds of JitCompileError (jit/src/lib.rs). -/
inductive JitCompileError
  | NotSupported
  | BadBytecode
  deriving DecidableEq, Repr

/-- Cranelift integer condition codes used by the core. -/
inductive IntCC
  | Equal
  | NotEqual
  | SignedLessThan
  | SignedLessThanOrEqual
  | SignedGreaterThan
  | SignedGreaterThanOrEqual
  | Overflow
  deriving DecidableEq, Repr

/-- Trap codes used by the core. -/
inductive TrapCode
  | IntegerOverflow
  deriving DecidableEq, Repr

/-- The cranelift instructions the core emits.  Value operands and block
targets are Nat ids.  The f64 payload of f64const is irrelevant to every
claim and is left opaque. -/
inductive ClifInst
  | jump (target : Nat)
  | brz (cond : Nat) (target : Nat)
  | fallthrough (target : Nat)
  | return_ (val : Nat)
  | iconst (imm : Int)
  | f64const
  | icmp (cc : IntCC) (x y : Nat)
  | iadd_ifcout (x y : Nat)
  | isub_ifbout (x y : Nat)
  | trapif (cc : IntCC) (flag : Nat) (code : TrapCode)
  | fadd (x y : Nat)
  | fsub (x y : Nat)
  | fmul (x y : Nat)
  | fdiv (x y : Nat)
  deriving DecidableEq, Repr

/-- Whether an instruction fills (terminates) a block.  In this cranelift
generation, jump, fallthrough and return are block terminators; brz and
trapif are not. -/
def isTerminator : ClifInst → Bool
  | .jump _ => true
  | .fallthrough _ => true
  | .return_ _ => true
  | _ => false

/-- The slice of cranelift FunctionBuilder state the core observes:
the blocks with their instruction lists, the current insertion point,
a fresh-value counter, the variable environment, declared variables,
and the function signature's return types. -/
structure BuilderState where
  blocks : List (List ClifInst)
  cur : Nat
  nextValue : Nat
  varDefs : List (Nat × Nat)
  declared : List (Nat × ClifType)
  funcReturns : List ClifType
  deriving DecidableEq, Repr

/-- Instruction list of the current block. -/
def BuilderState.curBlock (b : BuilderState) : List ClifInst :=
  b.blocks.getD b.cur []

/-- Append one instruction to the current block. -/
def BuilderState.appendInst (b : BuilderState) (i : ClifInst) : BuilderState :=
  { b with blocks := b.blocks.set b.cur (b.curBlock ++ [i]) }

/-- FunctionBuilder::is_filled: the current block ends in a terminator. -/
def BuilderState.is_filled (b : BuilderState) : Bool :=
  match b.curBlock.getLast? with
  | some i => isTerminator i
  | none => false

/-- FunctionBuilder::create_block: a fresh empty block, returning its id. -/
def BuilderState.create_block (b : BuilderState) : Nat × BuilderState :=
  (b.blocks.length, { b with blocks := b.blocks ++ [[]] })

/-- FunctionBuilder::switch_to_block. -/
def BuilderState.switch_to_block (b : BuilderState) (blk : Nat) : BuilderState :=
  { b with cur := blk }

/-- ins().jump(target, []). -/
def BuilderState.ins_jump (b : BuilderState) (target : Nat) : BuilderState :=
  b.appendInst (.jump target)

/-- ins().brz(cond, target, []). -/
def BuilderState.ins_brz (b : BuilderState) (cond target : Nat) : BuilderState :=
  b.appendInst (.brz cond target)

/-- ins().fallthrough(target, []). -/
def BuilderState.ins_fallthrough (b : BuilderState) (target : Nat) : BuilderState :=
  b.appendInst (.fallthrough target)

/-- ins().return_([val]). -/
def BuilderState.ins_return (b : BuilderState) (v : Nat) : BuilderState :=
  b.appendInst (.return_ v)

/-- ins().trapif(cc, flag, code). -/
def BuilderState.ins_trapif (b : BuilderState) (cc : IntCC) (flag : Nat)
    (code : TrapCode) : BuilderState :=
  b.appendInst (.trapif cc flag code)

/-- ins().iconst(I64, imm): appends and returns the produced value. -/
def BuilderState.ins_iconst (b : BuilderState) (imm : Int) : Nat × BuilderState :=
  (b.nextValue, { b.appendInst (.iconst imm) with nextValue := b.nextValue + 1 })

/-- ins().f64const(v). -/
def BuilderState.ins_f64const (b : BuilderState) : Nat × BuilderState :=
  (b.nextValue, { b.appendInst .f64const with nextValue := b.nextValue + 1 })

/-- ins().icmp(cc, x, y). -/
def BuilderState.ins_icmp (b : BuilderState) (cc : IntCC) (x y : Nat) :
    Nat × BuilderState :=
  (b.nextValue, { b.appendInst (.icmp cc x y) with nextValue := b.nextValue + 1 })

/-- ins().iadd_ifcout(x, y): produces the result and the carry flag. -/
def BuilderState.ins_iadd_ifcout (b : BuilderState) (x y : Nat) :
    Nat × Nat × BuilderState :=
  (b.nextValue, b.nextValue + 1,
    { b.appendInst (.iadd_ifcout x y) with nextValue := b.nextValue + 2 })

/-- ins().isub_ifbout(x, y): produces the result and the borrow flag. -/
def BuilderState.ins_isub_ifbout (b : BuilderState) (x y : Nat) :
    Nat × Nat × BuilderState :=
  (b.nextValue, b.nextValue + 1,
    { b.appendInst (.isub_ifbout x y) with nextValue := b.nextValue + 2 })

/-- ins().fadd(x, y). -/
def BuilderState.ins_fadd (b : BuilderState) (x y : Nat) : Nat × BuilderState :=
  (b.nextValue, { b.appendInst (.fadd x y) with nextValue := b.nextValue + 1 })

/-- ins().fsub(x, y). -/
def BuilderState.ins_fsub (b : BuilderState) (x y : Nat) : Nat × BuilderState :=
  (b.nextValue, { b.appendInst (.fsub x y) with nextValue := b.nextValue + 1 })

/-- ins().fmul(x, y). -/
def BuilderState.ins_fmul (b : BuilderState) (x y : Nat) : Nat × BuilderState :=
  (b.nextValue, { b.appendInst (.fmul x y) with nextValue := b.nextValue + 1 })

/-- ins().fdiv(x, y). -/
def BuilderState.ins_fdiv (b : BuilderState) (x y : Nat) : Nat × BuilderState :=
  (b.nextValue, { b.appendInst (.fdiv x y) with nextValue := b.nextValue + 1 })

/-- use_var: read the variable's current value (the builder's internal
SSA reconstruction is abstracted as this environment read). -/
def BuilderState.use_var (b : BuilderState) (v : Nat) : Nat :=
  (assocLookup b.varDefs v).getD 0

/-- def_var: write the variable's current value. -/
def BuilderState.def_var (b : BuilderState) (v val : Nat) : BuilderState :=
  { b with varDefs := assocInsert b.varDefs v val }

/-- declare_var(var, ty). -/
def BuilderState.declare_var (b : BuilderState) (v : Nat) (ty : ClifType) :
    BuilderState :=
  { b with declared := b.declared ++ [(v, ty)] }

/-- NameScope from rustpython_bytecode. -/
inductive NameScope
  | Local
  | NonLocal
  | Global
  | Free
  deriving DecidableEq, Repr

/-- ComparisonOperator from rustpython_bytecode. -/
inductive ComparisonOperator
  | Greater
  | GreaterOrEqual
  | Less
  | LessOrEqual
  | Equal
  | NotEqual
  | In
  | NotIn
  | Is
  | IsNot
  deriving DecidableEq, Repr

/-- BinaryOperator from rustpython_bytecode. -/
inductive BinaryOperator
  | Power
  | Multiply
  | MatrixMultiply
  | Divide
  | FloorDivide
  | Modulo
  | Add
  | Subtract
  | Lshift
  | Rshift
  | And
  | Xor
  | Or
  deriving DecidableEq, Repr

/-- The bytecode instructions the core dispatches on.  Labels are Nats.
LoadConst is split by constant kind (the Int payload models the BigInt
literal; the f64 payload of a float literal is opaque).  Other stands
for every remaining opcode of the bytecode enum, all of which reach the
default arm of add_instruction.  The inplace flag of BinaryOperation and
the extra payloads of other opcodes are ignored by the core (matched
with ..) and omitted. -/
inductive Instruction
  | JumpIfFalse (target : Nat)
  | Jump (target : Nat)
  | LoadName (name : String) (scope : NameScope)
  | StoreName (name : String) (scope : NameScope)
  | LoadConstInt (value : Int)
  | LoadConstFloat
  | ReturnValue
  | CompareOperation (op : ComparisonOperator)
  | BinaryOperation (op : BinaryOperator)
  | Other
  deriving DecidableEq, Repr

/-- Local (instructions.rs): a backend variable plus its fixed type. -/
structure Local where
  var : Nat
  ty : JitType
  deriving DecidableEq, Repr

/-- JitValue (instructions.rs): a value handle plus its type. -/
structure JitValue where
  val : Nat
  ty : JitType
  deriving DecidableEq, Repr

/-- JitSig (jit/src/lib.rs): argument types and optional return type. -/
structure JitSig where
  args : List JitType
  ret : Option JitType
  deriving DecidableEq, Repr

/-- FunctionCompiler state: builder, operand stack (head is the top),
variables table (field vars; the source name variables is a reserved word here), label-to-block table, inferred signature. -/
structure FunctionCompiler where
  builder : BuilderState
  stack : List JitValue
  vars : List (String × Local)
  label_to_block : List (Nat × Nat)
  sig : JitSig
  deriving DecidableEq, Repr

/-- CodeObject: the instruction list and the label map (label to offset). -/
structure CodeObject where
  instructions : List Instruction
  label_map : List (Nat × Nat)
  deriving DecidableEq, Repr

/-- FunctionCompiler::store_variable.  In the source the entry API
inserts a fresh Local (declaring the backend variable with the value's
type, at index = current table size) when the name is unbound, then the
type check runs; on the fresh path it trivially passes. -/
def store_variable (c : FunctionCompiler) (name : String) (val : JitValue) :
    Except JitCompileError FunctionCompiler :=
  match assocLookup c.vars name with
  | none =>
    let var := c.vars.length
    let builder := c.builder.declare_var var val.ty.to_cranelift
    let builder := builder.def_var var val.val
    .ok { c with builder,
                 vars := assocInsert c.vars name ⟨var, val.ty⟩ }
  | some loc =>
    if val.ty ≠ loc.ty then .error .NotSupported
    else .ok { c with builder := c.builder.def_var loc.var val.val }

/-- FunctionCompiler::boolean_val. -/
def boolean_val (val : JitValue) : Except JitCompileError Nat :=
  match val.ty with
  | .Float => .error .NotSupported
  | .Int => .ok val.val

/-- The inline comparison-operator table of the CompareOperation arm of
add_instruction, including the source's GreaterOrEqual line verbatim;
none stands for the arm's early NotSupported return. -/
def intCmpCC : ComparisonOperator → Option IntCC
  | .Equal => some IntCC.Equal
  | .NotEqual => some IntCC.NotEqual
  | .Less => some IntCC.SignedLessThan
  | .LessOrEqual => some IntCC.SignedLessThanOrEqual
  | .Greater => some IntCC.SignedGreaterThan
  | .GreaterOrEqual => some IntCC.SignedLessThanOrEqual
  | _ => none

/-- FunctionCompiler::add_instruction.  Stack pops take the list head
(the rhs of a binary/comparison operation is popped first).  The i64
range check models BigInt::to_i64. -/
def add_instruction (c : FunctionCompiler) (instruction : Instruction) :
    Except JitCompileError FunctionCompiler :=
  match instruction with
  | .JumpIfFalse target =>
    match c.stack with
    | [] => .error .BadBytecode
    | cond :: rest =>
      let (then_block, builder) := c.builder.create_block
      let label_to_block := assocInsert c.label_to_block target then_block
      match boolean_val cond with
      | .error e => .error e
      | .ok v =>
        let builder := builder.ins_brz v then_block
        let (block, builder) := builder.create_block
        let builder := builder.ins_fallthrough block
        let builder := builder.switch_to_block block
        .ok { c with builder, stack := rest, label_to_block }
  | .Jump target =>
    let (target_block, builder) := c.builder.create_block
    let label_to_block := assocInsert c.label_to_block target target_block
    let builder := builder.ins_jump target_block
    .ok { c with builder, label_to_block }
  | .LoadName name .Local =>
    match assocLookup c.vars name with
    | none => .error .BadBytecode
    | some loc =>
      .ok { c with stack := ⟨c.builder.use_var loc.var, loc.ty⟩ :: c.stack }
  | .StoreName name .Local =>
    match c.stack with
    | [] => .error .BadBytecode
    | val :: rest => store_variable { c with stack := rest } name val
  | .LoadConstInt value =>
    if decide (-9223372036854775808 ≤ value) &&
        decide (value ≤ 9223372036854775807) then
      let (v, builder) := c.builder.ins_iconst value
      .ok { c with builder, stack := ⟨v, JitType.Int⟩ :: c.stack }
    else .error .NotSupported
  | .LoadConstFloat =>
    let (v, builder) := c.builder.ins_f64const
    .ok { c with builder, stack := ⟨v, JitType.Float⟩ :: c.stack }
  | .ReturnValue =>
    match c.stack with
    | [] => .error .BadBytecode
    | val :: rest =>
      match c.sig.ret with
      | some ty =>
        if val.ty ≠ ty then .error .NotSupported
        else .ok { c with builder := c.builder.ins_return val.val, stack := rest }
      | none =>
        let sig := { c.sig with ret := some val.ty }
        let builder :=
          { c.builder with
              funcReturns := c.builder.funcReturns ++ [val.ty.to_cranelift] }
        let builder := builder.ins_return val.val
        .ok { c with builder, stack := rest, sig }
  | .CompareOperation op =>
    match c.stack with
    | vb :: va :: rest =>
      match va.ty, vb.ty with
      | .Int, .Int =>
        match intCmpCC op with
        | none => .error .NotSupported
        | some cond =>
          let (v, builder) := c.builder.ins_icmp cond va.val vb.val
          .ok { c with builder, stack := ⟨v, JitType.Int⟩ :: rest }
      | _, _ => .error .NotSupported
    | _ => .error .BadBytecode
  | .BinaryOperation op =>
    match c.stack with
    | vb :: va :: rest =>
      match va.ty, vb.ty with
      | .Int, .Int =>
        match op with
        | .Add =>
          let (out, carry, builder) := c.builder.ins_iadd_ifcout va.val vb.val
          let builder := builder.ins_trapif .Overflow carry .IntegerOverflow
          .ok { c with builder, stack := ⟨out, JitType.Int⟩ :: rest }
        | .Subtract =>
          let (out, borrow, builder) := c.builder.ins_isub_ifbout va.val vb.val
          let builder := builder.ins_trapif .Overflow borrow .IntegerOverflow
          .ok { c with builder, stack := ⟨out, JitType.Int⟩ :: rest }
        | _ => .error .NotSupported
      | .Float, .Float =>
        match op with
        | .Add =>
          let (v, builder) := c.builder.ins_fadd va.val vb.val
          .ok { c with builder, stack := ⟨v, JitType.Float⟩ :: rest }
        | .Subtract =>
          let (v, builder) := c.builder.ins_fsub va.val vb.val
          .ok { c with builder, stack := ⟨v, JitType.Float⟩ :: rest }
        | .Multiply =>
          let (v, builder) := c.builder.ins_fmul va.val vb.val
          .ok { c with builder, stack := ⟨v, JitType.Float⟩ :: rest }
        | .Divide =>
          let (v, builder) := c.builder.ins_fdiv va.val vb.val
          .ok { c with builder, stack := ⟨v, JitType.Float⟩ :: rest }
        | _ => .error .NotSupported
      | _, _ => .error .NotSupported
    | _ => .error .BadBytecode
  | _ => .error .NotSupported

/-- Reverse lookup in the label map, modelling the offset_to_label
HashMap built at the top of compile (label offsets are distinct keys in
the source HashMap, so the first hit is the entry). -/
def offsetToLabel (label_map : List (Nat × Nat)) (offset : Nat) : Option Nat :=
  (label_map.find? (fun p => p.2 == offset)).map (fun p => p.1)

/-- The label-handling prologue of one iteration of compile's loop: if
the offset is a jump target, look up or lazily create its block, append
a fallthrough jump when the current block is not filled, and switch to
it. -/
def processLabel (c : FunctionCompiler) (labelMap : List (Nat × Nat))
    (offset : Nat) : FunctionCompiler :=
  match offsetToLabel labelMap offset with
  | none => c
  | some label =>
    let (block, c) :=
      match assocLookup c.label_to_block label with
      | some b => (b, c)
      | none =>
        let (b, builder) := c.builder.create_block
        (b, { c with builder,
                     label_to_block := assocInsert c.label_to_block label b })
    let c :=
      if c.builder.is_filled then c
      else { c with builder := c.builder.ins_jump block }
    { c with builder := c.builder.switch_to_block block }

/-- One iteration of compile's loop at a given offset: handle a label,
then either skip the instruction (dead code after a terminator) or
translate it. -/
def compileStep (c : FunctionCompiler) (labelMap : List (Nat × Nat))
    (offset : Nat) (instruction : Instruction) :
    Except JitCompileError FunctionCompiler :=
  if (processLabel c labelMap offset).builder.is_filled then
    .ok (processLabel c labelMap offset)
  else add_instruction (processLabel c labelMap offset) instruction

/-- The enumerated loop of FunctionCompiler::compile from a given
offset. -/
def compileFrom (c : FunctionCompiler) (labelMap : List (Nat × Nat)) :
    Nat → List Instruction → Except JitCompileError FunctionCompiler
  | _, [] => .ok c
  | offset, i :: rest =>
    match compileStep c labelMap offset i with
    | .error e => .error e
    | .ok c' => compileFrom c' labelMap (offset + 1) rest

/-- FunctionCompiler::compile. -/
def compile (c : FunctionCompiler) (bytecode : CodeObject) :
    Except JitCompileError FunctionCompiler :=
  compileFrom c bytecode.label_map 0 bytecode.instructions

/-- FunctionCompiler::new for a function with no arguments: entry block
0 is current and empty, all tables empty.  (With arguments, new binds
each argument by store_variable on distinct fresh names, which cannot
fail.) -/
def FunctionCompiler.init : FunctionCompiler :=
  { builder := { blocks := [[]], cur := 0, nextValue := 0, varDefs := [],
                 declared := [], funcReturns := [] },
    stack := [], vars := [], label_to_block := [],
    sig := { args := [], ret := none } }

/-! Helper lemmas about list indexing used by several claim proofs. -/

theorem getD_append_lt {α : Type} (l l' : List α) (n : Nat) (d : α)
    (h : n < l.length) : (l ++ l')[n]?.getD d = l[n]?.getD d := by
  rw [List.getElem?_append]
  simp [h]

theorem getD_set_self {α : Type} (l : List α) (n : Nat) (x d : α)
    (h : n < l.length) : (l.set n x)[n]?.getD d = x := by
  rw [List.getElem?_set_eq_of_lt x h]
  rfl

/-- Appending an instruction to the current block, when the insertion
point is in range, extends exactly the current block. -/
theorem curBlock_appendInst (b : BuilderState) (i : ClifInst)
    (h : b.cur < b.blocks.length) :
    (b.appendInst i).curBlock = b.curBlock ++ [i] := by
  simp only [BuilderState.appendInst, BuilderState.curBlock,
    List.getD_eq_getElem?_getD]
  exact getD_set_self _ _ _ _ h

/-- C2: refuted on the code (source defect).  Translating an
integer/integer greater-or-equal comparison emits the signed
less-or-equal primitive, not a signed greater-or-equal one: with the
stack holding lhs value 0 (typed Int) below rhs value 1 (typed Int),
the CompareOperation GreaterOrEqual arm appends icmp
SignedLessThanOrEqual 0 1 to the current block (and pushes an Int-typed
result), where the corresponding greater-or-equal primitive would be
SignedGreaterThanOrEqual. -/
theorem c2_ge_comparison_emits_signed_le :
    (add_instruction
        { FunctionCompiler.init with
            stack := [⟨1, JitType.Int⟩, ⟨0, JitType.Int⟩] }
        (.CompareOperation .GreaterOrEqual)).map
      (fun c => (c.builder.curBlock, c.stack)) =
    .ok ([ClifInst.icmp IntCC.SignedLessThanOrEqual 0 1],
         [⟨0, JitType.Int⟩]) ∧
    intCmpCC .GreaterOrEqual = some IntCC.SignedLessThanOrEqual ∧
    intCmpCC .GreaterOrEqual ≠ some IntCC.SignedGreaterThanOrEqual := by
  exact ⟨rfl, rfl, by decide⟩

/-- C10: a LoadName or StoreName whose scope is not the local scope is
rejected with NotSupported by the default dispatch arm, for every
compiler state — in particular even when the name is bound in the
variables table. -/
theorem c10_nonlocal_scope_not_supported (c : FunctionCompiler)
    (name : String) (scope : NameScope) (h : scope ≠ NameScope.Local) :
    add_instruction c (.LoadName name scope) = .error .NotSupported ∧
    add_instruction c (.StoreName name scope) = .error .NotSupported := by
  cases scope with
  | Local => exact absurd rfl h
  | NonLocal => exact ⟨rfl, rfl⟩
  | Global => exact ⟨rfl, rfl⟩
  | Free => exact ⟨rfl, rfl⟩

/-- Witness for C10 at a concrete state in which the name is bound
locally with type Int, accessed with Global scope. -/
theorem c10_nonlocal_scope_not_supported_witness :
    add_instruction
        { FunctionCompiler.init with vars := [("x", ⟨0, JitType.Int⟩)] }
        (.LoadName "x" .Global) = .error .NotSupported ∧
    add_instruction
        { FunctionCompiler.init with vars := [("x", ⟨0, JitType.Int⟩)] }
        (.StoreName "x" .Global) = .error .NotSupported :=
  c10_nonlocal_scope_not_supported
    { FunctionCompiler.init with vars := [("x", ⟨0, JitType.Int⟩)] }
    "x" .Global (by decide)

/-- C9: a value used as a branch condition must be integer-typed.  With
the condition on top of the stack, a float-typed condition makes
JumpIfFalse translation fail with NotSupported, and an integer-typed
condition is accepted unchanged: its value id is placed as the brz
condition, followed by a fallthrough into the fresh untaken-path
block. -/
theorem c9_branch_condition (c : FunctionCompiler) (cond : JitValue)
    (rest : List JitValue) (t : Nat)
    (h : c.stack = cond :: rest)
    (hcur : c.builder.cur < c.builder.blocks.length) :
    (cond.ty = JitType.Float →
      add_instruction c (.JumpIfFalse t) = .error .NotSupported) ∧
    (cond.ty = JitType.Int →
      (add_instruction c (.JumpIfFalse t)).map
          (fun c' => (c'.builder.blocks.getD c.builder.cur [],
                      c'.builder.cur, c'.stack)) =
        .ok (c.builder.curBlock ++
              [.brz cond.val c.builder.blocks.length,
               .fallthrough (c.builder.blocks.length + 1)],
             c.builder.blocks.length + 1, rest)) := by
  constructor
  · intro hty
    simp [add_instruction, h, boolean_val, hty, BuilderState.create_block]
  · intro hty
    simp [add_instruction, h, boolean_val, hty, BuilderState.create_block,
          BuilderState.ins_brz, BuilderState.ins_fallthrough,
          BuilderState.switch_to_block, BuilderState.appendInst,
          BuilderState.curBlock, Except.map]
    rw [getD_set_self _ _ _ _ (by simp; omega),
        getD_append_lt _ _ _ _ (by simp; omega),
        getD_set_self _ _ _ _ (by simp; omega),
        getD_append_lt _ _ _ _ hcur]
    simp

/-- Witness for C9: an integer-typed condition value 5 branching to
label 3 from the initial state. -/
theorem c9_branch_condition_witness :
    (add_instruction { FunctionCompiler.init with
        stack := [⟨5, JitType.Int⟩] } (.JumpIfFalse 3)).map
        (fun c' => (c'.builder.blocks.getD 0 [], c'.builder.cur, c'.stack)) =
      .ok ([.brz 5 1, .fallthrough 2], 2, []) :=
  (c9_branch_condition
    { FunctionCompiler.init with stack := [⟨5, JitType.Int⟩] }
    ⟨5, JitType.Int⟩ [] 3 rfl (by decide)).2 rfl

/-- C7: operand pop order.  With the stack topped by vb over va (so the
source pushed va, the left operand, first and vb, the right operand,
last), vb is the first value popped, va the second, and every emitted
comparison or binary-arithmetic primitive receives the operands in
left-then-right order (va.val first): icmp cc va.val vb.val for every
mapped comparison kind; iadd_ifcout va.val vb.val and
isub_ifbout va.val vb.val for integer addition and subtraction
(computing va plus/minus vb); and fadd/fsub/fmul/fdiv va.val vb.val
for every float operation — in particular fdiv va.val vb.val computes
va divided by vb, the order-sensitive case. -/
theorem c7_pop_order (c : FunctionCompiler) (va vb : JitValue)
    (rest : List JitValue)
    (h : c.stack = vb :: va :: rest)
    (hcur : c.builder.cur < c.builder.blocks.length) :
    (∀ op cc, intCmpCC op = some cc → va.ty = JitType.Int →
      vb.ty = JitType.Int →
      (add_instruction c (.CompareOperation op)).map
          (fun c' => (c'.builder.curBlock, c'.stack)) =
        .ok (c.builder.curBlock ++ [.icmp cc va.val vb.val],
             ⟨c.builder.nextValue, JitType.Int⟩ :: rest)) ∧
    (va.ty = JitType.Int → vb.ty = JitType.Int →
      (add_instruction c (.BinaryOperation .Add)).map
          (fun c' => (c'.builder.curBlock, c'.stack)) =
        .ok (c.builder.curBlock ++
              [.iadd_ifcout va.val vb.val,
               .trapif .Overflow (c.builder.nextValue + 1) .IntegerOverflow],
             ⟨c.builder.nextValue, JitType.Int⟩ :: rest)) ∧
    (va.ty = JitType.Int → vb.ty = JitType.Int →
      (add_instruction c (.BinaryOperation .Subtract)).map
          (fun c' => (c'.builder.curBlock, c'.stack)) =
        .ok (c.builder.curBlock ++
              [.isub_ifbout va.val vb.val,
               .trapif .Overflow (c.builder.nextValue + 1) .IntegerOverflow],
             ⟨c.builder.nextValue, JitType.Int⟩ :: rest)) ∧
    (va.ty = JitType.Float → vb.ty = JitType.Float →
      (add_instruction c (.BinaryOperation .Add)).map
          (fun c' => (c'.builder.curBlock, c'.stack)) =
        .ok (c.builder.curBlock ++ [.fadd va.val vb.val],
             ⟨c.builder.nextValue, JitType.Float⟩ :: rest)) ∧
    (va.ty = JitType.Float → vb.ty = JitType.Float →
      (add_instruction c (.BinaryOperation .Subtract)).map
          (fun c' => (c'.builder.curBlock, c'.stack)) =
        .ok (c.builder.curBlock ++ [.fsub va.val vb.val],
             ⟨c.builder.nextValue, JitType.Float⟩ :: rest)) ∧
    (va.ty = JitType.Float → vb.ty = JitType.Float →
      (add_instruction c (.BinaryOperation .Multiply)).map
          (fun c' => (c'.builder.curBlock, c'.stack)) =
        .ok (c.builder.curBlock ++ [.fmul va.val vb.val],
             ⟨c.builder.nextValue, JitType.Float⟩ :: rest)) ∧
    (va.ty = JitType.Float → vb.ty = JitType.Float →
      (add_instruction c (.BinaryOperation .Divide)).map
          (fun c' => (c'.builder.curBlock, c'.stack)) =
        .ok (c.builder.curBlock ++ [.fdiv va.val vb.val],
             ⟨c.builder.nextValue, JitType.Float⟩ :: rest)) := by
  refine ⟨?_, ?_, ?_, ?_, ?_, ?_, ?_⟩
  · intro op cc hop hta htb
    simp [add_instruction, h, hta, htb, hop, BuilderState.ins_icmp,
          BuilderState.appendInst, BuilderState.curBlock, Except.map]
    rw [getD_set_self _ _ _ _ hcur]
  · intro hta htb
    simp [add_instruction, h, hta, htb, BuilderState.ins_iadd_ifcout,
          BuilderState.ins_trapif, BuilderState.appendInst,
          BuilderState.curBlock, Except.map]
    rw [getD_set_self _ _ _ _ (by omega),
        getD_set_self _ _ _ _ hcur]
    simp
  · intro hta htb
    simp [add_instruction, h, hta, htb, BuilderState.ins_isub_ifbout,
          BuilderState.ins_trapif, BuilderState.appendInst,
          BuilderState.curBlock, Except.map]
    rw [getD_set_self _ _ _ _ (by omega),
        getD_set_self _ _ _ _ hcur]
    simp
  · intro hta htb
    simp [add_instruction, h, hta, htb, BuilderState.ins_fadd,
          BuilderState.appendInst, BuilderState.curBlock, Except.map]
    rw [getD_set_self _ _ _ _ hcur]
  · intro hta htb
    simp [add_instruction, h, hta, htb, BuilderState.ins_fsub,
          BuilderState.appendInst, BuilderState.curBlock, Except.map]
    rw [getD_set_self _ _ _ _ hcur]
  · intro hta htb
    simp [add_instruction, h, hta, htb, BuilderState.ins_fmul,
          BuilderState.appendInst, BuilderState.curBlock, Except.map]
    rw [getD_set_self _ _ _ _ hcur]
  · intro hta htb
    simp [add_instruction, h, hta, htb, BuilderState.ins_fdiv,
          BuilderState.appendInst, BuilderState.curBlock, Except.map]
    rw [getD_set_self _ _ _ _ hcur]

/-- Witness for C7: on concrete states, integer subtraction with lhs
value 0 and rhs value 1 emits isub_ifbout 0 1, and float division with
lhs value 0 and rhs value 1 emits fdiv 0 1 (the order-sensitive
case). -/
theorem c7_pop_order_witness :
    (add_instruction
        { FunctionCompiler.init with
            stack := [⟨1, JitType.Int⟩, ⟨0, JitType.Int⟩],
            builder := { FunctionCompiler.init.builder with nextValue := 2 } }
        (.BinaryOperation .Subtract)).map
        (fun c' => (c'.builder.curBlock, c'.stack)) =
      .ok ([.isub_ifbout 0 1,
            .trapif .Overflow 3 .IntegerOverflow],
           [⟨2, JitType.Int⟩]) ∧
    (add_instruction
        { FunctionCompiler.init with
            stack := [⟨1, JitType.Float⟩, ⟨0, JitType.Float⟩],
            builder := { FunctionCompiler.init.builder with nextValue := 2 } }
        (.BinaryOperation .Divide)).map
        (fun c' => (c'.builder.curBlock, c'.stack)) =
      .ok ([.fdiv 0 1], [⟨2, JitType.Float⟩]) :=
  ⟨(c7_pop_order
      { FunctionCompiler.init with
          stack := [⟨1, JitType.Int⟩, ⟨0, JitType.Int⟩],
          builder := { FunctionCompiler.init.builder with nextValue := 2 } }
      ⟨0, JitType.Int⟩ ⟨1, JitType.Int⟩ [] rfl (by decide)).2.2.1 rfl rfl,
   (c7_pop_order
      { FunctionCompiler.init with
          stack := [⟨1, JitType.Float⟩, ⟨0, JitType.Float⟩],
          builder := { FunctionCompiler.init.builder with nextValue := 2 } }
      ⟨0, JitType.Float⟩ ⟨1, JitType.Float⟩ [] rfl
      (by decide)).2.2.2.2.2.2 rfl rfl⟩

/-- C8: the binary-operation translation table.  Integer/integer
addition and subtraction emit an overflow-checked primitive
(iadd_ifcout / isub_ifbout) producing a result and a flag, immediately
followed by trapif Overflow on that flag with the IntegerOverflow trap
code, pushing an integer-typed result; every other integer operator
(multiply, divide, ...) fails with NotSupported.  Float/float add,
subtract, multiply and divide emit the single ordinary floating-point
primitive with no trap, pushing a float-typed result; every other float
operator fails with NotSupported.  Mismatched operand types fail with
NotSupported. -/
theorem c8_binary_arith (c : FunctionCompiler) (va vb : JitValue)
    (rest : List JitValue) (op : BinaryOperator)
    (h : c.stack = vb :: va :: rest)
    (hcur : c.builder.cur < c.builder.blocks.length) :
    (va.ty = JitType.Int → vb.ty = JitType.Int →
      (op = .Add →
        (add_instruction c (.BinaryOperation op)).map
            (fun c' => (c'.builder.curBlock, c'.stack)) =
          .ok (c.builder.curBlock ++
                [.iadd_ifcout va.val vb.val,
                 .trapif .Overflow (c.builder.nextValue + 1) .IntegerOverflow],
               ⟨c.builder.nextValue, JitType.Int⟩ :: rest)) ∧
      (op = .Subtract →
        (add_instruction c (.BinaryOperation op)).map
            (fun c' => (c'.builder.curBlock, c'.stack)) =
          .ok (c.builder.curBlock ++
                [.isub_ifbout va.val vb.val,
                 .trapif .Overflow (c.builder.nextValue + 1) .IntegerOverflow],
               ⟨c.builder.nextValue, JitType.Int⟩ :: rest)) ∧
      (op ≠ .Add → op ≠ .Subtract →
        add_instruction c (.BinaryOperation op) = .error .NotSupported)) ∧
    (va.ty = JitType.Float → vb.ty = JitType.Float →
      (op = .Add →
        (add_instruction c (.BinaryOperation op)).map
            (fun c' => (c'.builder.curBlock, c'.stack)) =
          .ok (c.builder.curBlock ++ [.fadd va.val vb.val],
               ⟨c.builder.nextValue, JitType.Float⟩ :: rest)) ∧
      (op = .Subtract →
        (add_instruction c (.BinaryOperation op)).map
            (fun c' => (c'.builder.curBlock, c'.stack)) =
          .ok (c.builder.curBlock ++ [.fsub va.val vb.val],
               ⟨c.builder.nextValue, JitType.Float⟩ :: rest)) ∧
      (op = .Multiply →
        (add_instruction c (.BinaryOperation op)).map
            (fun c' => (c'.builder.curBlock, c'.stack)) =
          .ok (c.builder.curBlock ++ [.fmul va.val vb.val],
               ⟨c.builder.nextValue, JitType.Float⟩ :: rest)) ∧
      (op = .Divide →
        (add_instruction c (.BinaryOperation op)).map
            (fun c' => (c'.builder.curBlock, c'.stack)) =
          .ok (c.builder.curBlock ++ [.fdiv va.val vb.val],
               ⟨c.builder.nextValue, JitType.Float⟩ :: rest)) ∧
      (op ≠ .Add → op ≠ .Subtract → op ≠ .Multiply → op ≠ .Divide →
        add_instruction c (.BinaryOperation op) = .error .NotSupported)) ∧
    (va.ty ≠ vb.ty →
      add_instruction c (.BinaryOperation op) = .error .NotSupported) := by
  refine ⟨?_, ?_, ?_⟩
  · intro hta htb
    refine ⟨?_, ?_, ?_⟩
    · intro hop; subst hop
      simp [add_instruction, h, hta, htb, BuilderState.ins_iadd_ifcout,
            BuilderState.ins_trapif, BuilderState.appendInst,
            BuilderState.curBlock, Except.map]
      rw [getD_set_self _ _ _ _ (by omega),
          getD_set_self _ _ _ _ hcur]
      simp
    · intro hop; subst hop
      simp [add_instruction, h, hta, htb, BuilderState.ins_isub_ifbout,
            BuilderState.ins_trapif, BuilderState.appendInst,
            BuilderState.curBlock, Except.map]
      rw [getD_set_self _ _ _ _ (by omega),
          getD_set_self _ _ _ _ hcur]
      simp
    · intro hne1 hne2
      cases op <;>
        first
          | exact absurd rfl hne1
          | exact absurd rfl hne2
          | simp [add_instruction, h, hta, htb]
  · intro hta htb
    refine ⟨?_, ?_, ?_, ?_, ?_⟩
    · intro hop; subst hop
      simp [add_instruction, h, hta, htb, BuilderState.ins_fadd,
            BuilderState.appendInst, BuilderState.curBlock, Except.map]
      rw [getD_set_self _ _ _ _ hcur]
    · intro hop; subst hop
      simp [add_instruction, h, hta, htb, BuilderState.ins_fsub,
            BuilderState.appendInst, BuilderState.curBlock, Except.map]
      rw [getD_set_self _ _ _ _ hcur]
    · intro hop; subst hop
      simp [add_instruction, h, hta, htb, BuilderState.ins_fmul,
            BuilderState.appendInst, BuilderState.curBlock, Except.map]
      rw [getD_set_self _ _ _ _ hcur]
    · intro hop; subst hop
      simp [add_instruction, h, hta, htb, BuilderState.ins_fdiv,
            BuilderState.appendInst, BuilderState.curBlock, Except.map]
      rw [getD_set_self _ _ _ _ hcur]
    · intro hne1 hne2 hne3 hne4
      cases op <;>
        first
          | exact absurd rfl hne1
          | exact absurd rfl hne2
          | exact absurd rfl hne3
          | exact absurd rfl hne4
          | simp [add_instruction, h, hta, htb]
  · intro hne
    cases hva : va.ty <;> cases hvb : vb.ty
    · exact absurd (hva.trans hvb.symm) hne
    · simp [add_instruction, h, hva, hvb]
    · simp [add_instruction, h, hva, hvb]
    · exact absurd (hva.trans hvb.symm) hne

/-- Witness for C8: integer addition of values 0 and 1 on a concrete
state emits the checked add followed by the overflow trap. -/
theorem c8_binary_arith_witness :
    (add_instruction
        { FunctionCompiler.init with
            stack := [⟨1, JitType.Int⟩, ⟨0, JitType.Int⟩],
            builder := { FunctionCompiler.init.builder with nextValue := 2 } }
        (.BinaryOperation .Add)).map
        (fun c' => (c'.builder.curBlock, c'.stack)) =
      .ok ([.iadd_ifcout 0 1,
            .trapif .Overflow 3 .IntegerOverflow],
           [⟨2, JitType.Int⟩]) :=
  ((c8_binary_arith
      { FunctionCompiler.init with
          stack := [⟨1, JitType.Int⟩, ⟨0, JitType.Int⟩],
          builder := { FunctionCompiler.init.builder with nextValue := 2 } }
      ⟨0, JitType.Int⟩ ⟨1, JitType.Int⟩ [] .Add rfl (by decide)).1
    rfl rfl).1 rfl

/-- C5: return-type inference.  With a value on top of the stack: while
the signature's return type is unset, translating a return fixes it to
the value's type and appends that type to the declared function returns
(and emits the return terminator); once set, a return whose value has a
different type fails with NotSupported, and a return with the same type
succeeds leaving the signature unchanged.  Every instruction other than
ReturnValue leaves the inferred return type untouched, so the type is
unset until the first translated return. -/
theorem c5_return_type_frozen (c : FunctionCompiler) (v : JitValue)
    (rest : List JitValue)
    (h : c.stack = v :: rest)
    (hcur : c.builder.cur < c.builder.blocks.length) :
    (c.sig.ret = none →
      (add_instruction c .ReturnValue).map
          (fun c' => (c'.sig.ret, c'.builder.funcReturns,
                      c'.builder.curBlock, c'.stack)) =
        .ok (some v.ty, c.builder.funcReturns ++ [v.ty.to_cranelift],
             c.builder.curBlock ++ [.return_ v.val], rest)) ∧
    (∀ t, c.sig.ret = some t → v.ty ≠ t →
      add_instruction c .ReturnValue = .error .NotSupported) ∧
    (∀ t, c.sig.ret = some t → v.ty = t →
      (add_instruction c .ReturnValue).map
          (fun c' => (c'.sig.ret, c'.builder.funcReturns,
                      c'.builder.curBlock, c'.stack)) =
        .ok (some t, c.builder.funcReturns,
             c.builder.curBlock ++ [.return_ v.val], rest)) ∧
    (∀ (c₂ c' : FunctionCompiler) (i : Instruction), i ≠ .ReturnValue →
      add_instruction c₂ i = .ok c' → c'.sig.ret = c₂.sig.ret) := by
  refine ⟨?_, ?_, ?_, ?_⟩
  · intro hret
    simp [add_instruction, h, hret, BuilderState.ins_return,
          BuilderState.appendInst, BuilderState.curBlock, Except.map]
    rw [getD_set_self _ _ _ _ hcur]
  · intro t hret hne
    simp [add_instruction, h, hret, hne]
  · intro t hret heq
    simp [add_instruction, h, hret, heq, BuilderState.ins_return,
          BuilderState.appendInst, BuilderState.curBlock, Except.map]
    rw [getD_set_self _ _ _ _ hcur]
  · intro c₂ c' i hne hok
    cases i <;> try (exact absurd rfl hne)
    all_goals revert hok
    all_goals simp only [add_instruction, store_variable, boolean_val]
    all_goals repeat' split
    all_goals intro hok
    all_goals
      first
        | exact Except.noConfusion hok
        | (cases hok; rfl)
        | simp_all

/-- Witness for C5: the first translated return of an Int-typed value 0
from the initial state fixes the inferred return type to Int and
declares I64 on the signature. -/
theorem c5_return_type_frozen_witness :
    (add_instruction
        { FunctionCompiler.init with stack := [⟨0, JitType.Int⟩] }
        .ReturnValue).map
        (fun c' => (c'.sig.ret, c'.builder.funcReturns,
                    c'.builder.curBlock, c'.stack)) =
      .ok (some JitType.Int, [ClifType.I64], [.return_ 0], []) :=
  (c5_return_type_frozen
    { FunctionCompiler.init with stack := [⟨0, JitType.Int⟩] }
    ⟨0, JitType.Int⟩ [] rfl (by decide)).1 rfl

theorem assocLookup_assocInsert_self {α β : Type} [DecidableEq α]
    (l : List (α × β)) (k : α) (v : β) :
    assocLookup (assocInsert l k v) k = some v := by
  induction l with
  | nil => simp [assocInsert, assocLookup]
  | cons p tl ih =>
    obtain ⟨a, b⟩ := p
    by_cases hak : a = k <;> simp [assocInsert, assocLookup, hak, ih]

theorem assocLookup_assocInsert_ne {α β : Type} [DecidableEq α]
    (l : List (α × β)) (k k' : α) (v : β) (h : k' ≠ k) :
    assocLookup (assocInsert l k v) k' = assocLookup l k' := by
  induction l with
  | nil => simp [assocInsert, assocLookup, Ne.symm h]
  | cons p tl ih =>
    obtain ⟨a, b⟩ := p
    by_cases hak : a = k
    · subst hak
      simp [assocInsert, assocLookup, Ne.symm h]
    · by_cases hak' : a = k'
      · simp [assocInsert, assocLookup, hak, hak', h]
      · simp [assocInsert, assocLookup, hak, hak', ih]

/-- store_variable leaves every existing binding of another name (and,
on the non-conflicting paths, of the same name) intact. -/
theorem store_variable_preserves (c c' : FunctionCompiler) (name : String)
    (v : JitValue) (hok : store_variable c name v = .ok c') (n : String)
    (l : Local) (hl : assocLookup c.vars n = some l) :
    assocLookup c'.vars n = some l := by
  unfold store_variable at hok
  cases hlook : assocLookup c.vars name with
  | none =>
    rw [hlook] at hok
    simp only [Except.ok.injEq] at hok
    subst hok
    have hne : n ≠ name := by
      intro hh
      rw [hh, hlook] at hl
      exact Option.noConfusion hl
    simpa [assocLookup_assocInsert_ne _ _ _ _ hne] using hl
  | some loc =>
    rw [hlook] at hok
    by_cases hty : v.ty = loc.ty
    · simp [hty] at hok
      subst hok
      exact hl
    · simp [hty] at hok
/-- C6: monomorphic local typing.  A first store of a name binds it to a
fresh backend variable declared with exactly the stored value's type; a
later store of a value with the same type succeeds and leaves the
variables table unchanged; a store of a value with a different type
fails with NotSupported; a load of a bound name pushes exactly the
bound type; and every successfully translated instruction preserves
every existing binding (variable and type) unchanged, so the type fixed
by the first store is observed for the whole compilation. -/
theorem c6_monomorphic_locals (c : FunctionCompiler) (name : String)
    (v : JitValue) :
    (assocLookup c.vars name = none →
      (store_variable c name v).map
          (fun c' => (assocLookup c'.vars name, c'.builder.declared)) =
        .ok (some ⟨c.vars.length, v.ty⟩,
             c.builder.declared ++ [(c.vars.length, v.ty.to_cranelift)])) ∧
    (∀ l, assocLookup c.vars name = some l → v.ty = l.ty →
      (store_variable c name v).map (fun c' => c'.vars) = .ok c.vars) ∧
    (∀ l, assocLookup c.vars name = some l → v.ty ≠ l.ty →
      store_variable c name v = .error .NotSupported) ∧
    (∀ l, assocLookup c.vars name = some l →
      (add_instruction c (.LoadName name .Local)).map (fun c' => c'.stack) =
        .ok (⟨c.builder.use_var l.var, l.ty⟩ :: c.stack)) ∧
    (∀ (c₂ c' : FunctionCompiler) (i : Instruction) (n : String) (l : Local),
      add_instruction c₂ i = .ok c' → assocLookup c₂.vars n = some l →
      assocLookup c'.vars n = some l) := by
  refine ⟨?_, ?_, ?_, ?_, ?_⟩
  · intro hnone
    simp [store_variable, hnone, BuilderState.declare_var,
          BuilderState.def_var, Except.map, assocLookup_assocInsert_self]
  · intro l hsome hty
    simp [store_variable, hsome, hty, Except.map]
  · intro l hsome hty
    simp [store_variable, hsome, hty]
  · intro l hsome
    simp [add_instruction, hsome, Except.map]
  · intro c₂ c' i n l hok hl
    cases i with
    | StoreName nm scope =>
      cases scope with
      | Local =>
        cases hs : c₂.stack with
        | nil =>
          simp [add_instruction, hs] at hok
        | cons val rest =>
          simp only [add_instruction, hs] at hok
          exact store_variable_preserves _ _ _ _ hok n l hl
      | NonLocal => exact Except.noConfusion hok
      | Global => exact Except.noConfusion hok
      | Free => exact Except.noConfusion hok
    | _ =>
      revert hok
      simp only [add_instruction, store_variable, boolean_val]
      repeat' split
      all_goals intro hok
      all_goals
        first
          | exact Except.noConfusion hok
          | (cases hok; exact hl)
          | simp_all

/-- Witness for C6: first store of a Float-typed value under the name x
in the initial state declares backend variable 0 with type F64 and
binds x to it at type Float. -/
theorem c6_monomorphic_locals_witness :
    (store_variable FunctionCompiler.init "x" ⟨7, JitType.Float⟩).map
        (fun c' => (assocLookup c'.vars "x", c'.builder.declared)) =
      .ok (some ⟨0, JitType.Float⟩, [(0, ClifType.F64)]) :=
  (c6_monomorphic_locals FunctionCompiler.init "x" ⟨7, JitType.Float⟩).1 rfl

/-- The structurally-invalid conditions of the malformed-input contract,
as characterized by the code's pop and lookup sites: popping with an
empty (or, for two-operand instructions, one-element) stack under
local-scope store, return, conditional jump, comparison or binary
arithmetic, and loading a local-scope name that is unbound. -/
def structurallyInvalid (c : FunctionCompiler) : Instruction → Bool
  | .JumpIfFalse _ => c.stack.isEmpty
  | .LoadName n .Local => (assocLookup c.vars n).isNone
  | .StoreName _ .Local => c.stack.isEmpty
  | .ReturnValue => c.stack.isEmpty
  | .CompareOperation _ =>
    match c.stack with
    | _ :: _ :: _ => false
    | _ => true
  | .BinaryOperation _ =>
    match c.stack with
    | _ :: _ :: _ => false
    | _ => true
  | _ => false
/-- C4 (amended): translation of one instruction fails with the
malformed-input kind (BadBytecode) exactly when the instruction pops a
value the operand stack does not hold or loads a local name that was
never stored.  Referencing an undefined jump target is NOT such a case:
see the counterexample theorem, the Jump arm never consults the label
map. -/
theorem c4_badbytecode_iff_structurally_invalid (c : FunctionCompiler) (i : Instruction) :
    add_instruction c i = .error .BadBytecode ↔
      structurallyInvalid c i = true := by
  cases i with
  | JumpIfFalse t =>
    cases hs : c.stack with
    | nil => simp [add_instruction, structurallyInvalid, hs]
    | cons cond rest =>
      cases hty : cond.ty <;>
        simp [add_instruction, structurallyInvalid, hs, boolean_val, hty]
  | _ =>
    simp only [add_instruction, structurallyInvalid, store_variable,
      boolean_val]
    repeat' split
    all_goals simp_all

/-- C4 counterexample: a program whose only instruction is a jump to
label 5 while the label map is empty — so the jump target is undefined
in the jump-target map — compiles successfully instead of failing with
the malformed-input kind: the Jump arm eagerly creates block 1 and
registers it under the undefined label, and compile returns ok. -/
theorem c4_undefined_jump_target_accepted :
    compile FunctionCompiler.init ⟨[.Jump 5], []⟩ =
      .ok { builder := { blocks := [[.jump 1], []], cur := 0, nextValue := 0,
                         varDefs := [], declared := [], funcReturns := [] },
            stack := [], vars := [], label_to_block := [(5, 1)],
            sig := { args := [], ret := none } } := rfl

/-- C1 counterexample: label 0 is at offset 0, and offset 1 holds a
backward jump to label 0.  Scanning offset 0 lazily creates block 1 for
the label (the entry block 0 ends with a fallthrough jump into it) and
places the label's code (iconst 7) there; but translating the backward
Jump creates a second block, 2, overwrites the label map entry (final
table maps label 0 to block 2) and emits jump 2 — so two distinct
control-flow blocks were created for the one label, and the backward
jump does not resolve to the block holding the label's code, refuting
the claim on this input. -/
theorem c1_backward_jump_gets_fresh_block :
    compile FunctionCompiler.init ⟨[.LoadConstInt 7, .Jump 0], [(0, 0)]⟩ =
      .ok { builder := { blocks := [[.jump 1], [.iconst 7, .jump 2], []],
                         cur := 1, nextValue := 1, varDefs := [],
                         declared := [], funcReturns := [] },
            stack := [⟨0, JitType.Int⟩], vars := [],
            label_to_block := [(0, 2)],
            sig := { args := [], ret := none } } := rfl
/-- C1 (amended): when the label's block already exists in the map,
reaching the label's offset reuses exactly that block (no block is
created, the insertion point moves to it, the map is unchanged) — so a
forward jump followed by the label's offset resolves to the identical
block.  But each translated Jump (and JumpIfFalse) unconditionally
creates a fresh block (the next unused id, one past the current block
count) and overwrites the label's map entry with it, so a jump
translated after the label's block was materialized targets a fresh
distinct block rather than the existing one. -/
theorem c1_amended_label_blocks :
    (∀ (c : FunctionCompiler) (lm : List (Nat × Nat)) (off label b : Nat),
      offsetToLabel lm off = some label →
      assocLookup c.label_to_block label = some b →
      (processLabel c lm off).builder.blocks.length =
          c.builder.blocks.length ∧
        (processLabel c lm off).builder.cur = b ∧
        (processLabel c lm off).label_to_block = c.label_to_block) ∧
    (∀ (c : FunctionCompiler) (t : Nat),
      (add_instruction c (.Jump t)).map
          (fun c' => (assocLookup c'.label_to_block t,
                      c'.builder.blocks.length)) =
        .ok (some c.builder.blocks.length, c.builder.blocks.length + 1)) ∧
    (∀ (c : FunctionCompiler) (t : Nat) (cond : JitValue)
        (rest : List JitValue),
      c.stack = cond :: rest → cond.ty = JitType.Int →
      (add_instruction c (.JumpIfFalse t)).map
          (fun c' => assocLookup c'.label_to_block t) =
        .ok (some c.builder.blocks.length)) := by
  refine ⟨?_, ?_, ?_⟩
  · intro c lm off label b hoff hlook
    by_cases hf : c.builder.is_filled <;>
      simp [processLabel, hoff, hlook, hf, BuilderState.switch_to_block,
            BuilderState.ins_jump, BuilderState.appendInst]
  · intro c t
    simp [add_instruction, BuilderState.create_block, BuilderState.ins_jump,
          BuilderState.appendInst, assocLookup_assocInsert_self, Except.map]
  · intro c t cond rest h hty
    simp [add_instruction, h, hty, boolean_val, BuilderState.create_block,
          BuilderState.ins_brz, BuilderState.ins_fallthrough,
          BuilderState.switch_to_block, BuilderState.appendInst,
          assocLookup_assocInsert_self, Except.map]

/-- Witness for C1 (amended): with label 4 already mapped to block 1
and label 4 sitting at offset 0, processing offset 0 creates no block,
switches to block 1, and leaves the map unchanged. -/
theorem c1_amended_label_blocks_witness :
    (processLabel
        { FunctionCompiler.init with
            builder := { FunctionCompiler.init.builder with
                           blocks := [[], []] },
            label_to_block := [(4, 1)] }
        [(4, 0)] 0).builder.blocks.length = 2 ∧
    (processLabel
        { FunctionCompiler.init with
            builder := { FunctionCompiler.init.builder with
                           blocks := [[], []] },
            label_to_block := [(4, 1)] }
        [(4, 0)] 0).builder.cur = 1 ∧
    (processLabel
        { FunctionCompiler.init with
            builder := { FunctionCompiler.init.builder with
                           blocks := [[], []] },
            label_to_block := [(4, 1)] }
        [(4, 0)] 0).label_to_block = [(4, 1)] :=
  c1_amended_label_blocks.1
    { FunctionCompiler.init with
        builder := { FunctionCompiler.init.builder with blocks := [[], []] },
        label_to_block := [(4, 1)] }
    [(4, 0)] 0 4 1 rfl rfl

/-- A block in which a terminator can occur only as the last
instruction. -/
def noMidTerm (blk : List ClifInst) : Bool :=
  blk.dropLast.all (fun i => !(isTerminator i))

/-- A block ending in a terminator, with no other terminator and no
instruction after it (the exactly-one-terminator shape of the claim). -/
def properlyTerminated (blk : List ClifInst) : Bool :=
  match blk.getLast? with
  | some i => isTerminator i && noMidTerm blk
  | none => false

/-- Every block of a block list has terminators only in final
position. -/
def noMidTermAll (bs : List (List ClifInst)) : Prop :=
  ∀ blk ∈ bs, noMidTerm blk = true

theorem noMidTerm_nil : noMidTerm [] = true := rfl

theorem all_nonterm_of_unfilled (l : List ClifInst)
    (h1 : noMidTerm l = true)
    (h2 : (match l.getLast? with
           | some i => isTerminator i
           | none => false) = false) :
    l.all (fun j => !(isTerminator j)) = true := by
  rcases List.eq_nil_or_concat l with rfl | ⟨l', x, rfl⟩
  · rfl
  · rw [List.concat_eq_append] at h1 h2 ⊢
    rw [List.getLast?_concat] at h2
    unfold noMidTerm at h1
    rw [List.dropLast_concat] at h1
    simp [List.all_append, h1]
    exact h2

theorem noMidTerm_concat (l : List ClifInst) (i : ClifInst)
    (h : l.all (fun j => !(isTerminator j)) = true) :
    noMidTerm (l ++ [i]) = true := by
  unfold noMidTerm
  rw [List.dropLast_concat]
  exact h

theorem noMidTermAll_set (bs : List (List ClifInst)) (n : Nat)
    (blk : List ClifInst) (h : noMidTermAll bs)
    (hblk : noMidTerm blk = true) : noMidTermAll (bs.set n blk) := by
  intro b hb
  rcases List.mem_or_eq_of_mem_set hb with hmem | rfl
  · exact h b hmem
  · exact hblk

theorem noMidTermAll_snoc_nil (bs : List (List ClifInst))
    (h : noMidTermAll bs) : noMidTermAll (bs ++ [[]]) := by
  intro b hb
  rcases List.mem_append.mp hb with hmem | hmem
  · exact h b hmem
  · rcases List.mem_singleton.mp hmem with rfl
    rfl

theorem noMidTerm_curBlock (b : BuilderState)
    (h : noMidTermAll b.blocks) : noMidTerm b.curBlock = true := by
  unfold BuilderState.curBlock
  cases hg : b.blocks[b.cur]? with
  | none =>
    simp only [List.getD_eq_getElem?_getD, hg, Option.getD_none]
    rfl
  | some blk =>
    simp only [List.getD_eq_getElem?_getD, hg, Option.getD_some]
    exact h blk (List.getElem?_mem hg)

theorem blocksNMT_appendInst (b : BuilderState) (i : ClifInst)
    (hb : noMidTermAll b.blocks) (hf : b.is_filled = false) :
    noMidTermAll (b.appendInst i).blocks := by
  unfold BuilderState.appendInst
  exact noMidTermAll_set _ _ _ hb
    (noMidTerm_concat _ _
      (all_nonterm_of_unfilled _ (noMidTerm_curBlock b hb) hf))

theorem unfilled_appendInst (b : BuilderState) (i : ClifInst)
    (hi : isTerminator i = false) :
    (b.appendInst i).is_filled = false := by
  unfold BuilderState.is_filled BuilderState.appendInst BuilderState.curBlock
  by_cases hcur : b.cur < b.blocks.length
  · simp only [List.getD_eq_getElem?_getD]
    rw [getD_set_self _ _ _ _ hcur, List.getLast?_concat]
    exact hi
  · rw [List.set_eq_of_length_le (Nat.le_of_not_lt hcur)]
    simp only [List.getD_eq_getElem?_getD,
      List.getElem?_eq_none (Nat.le_of_not_lt hcur)]
    rfl

theorem unfilled_create (b : BuilderState) (hf : b.is_filled = false) :
    (b.create_block).2.is_filled = false := by
  unfold BuilderState.is_filled BuilderState.curBlock at *
  by_cases hcur : b.cur < b.blocks.length
  · simp only [BuilderState.create_block, List.getD_eq_getElem?_getD] at *
    rw [getD_append_lt _ _ _ _ hcur]
    simpa using hf
  · simp only [BuilderState.create_block, List.getD_eq_getElem?_getD]
    by_cases heq : b.cur = b.blocks.length
    · rw [heq, List.getElem?_append_right (Nat.le_refl _)]
      simp
    · rw [List.getElem?_eq_none (by simp; omega)]
      rfl

theorem processLabel_preserves (c : FunctionCompiler)
    (lm : List (Nat × Nat)) (off : Nat)
    (h : noMidTermAll c.builder.blocks) :
    noMidTermAll (processLabel c lm off).builder.blocks := by
  unfold processLabel
  cases hoff : offsetToLabel lm off with
  | none => exact h
  | some label =>
    cases hlook : assocLookup c.label_to_block label with
    | some b =>
      simp only [hlook]
      by_cases hf : c.builder.is_filled
      · simp only [hf, if_true, BuilderState.switch_to_block]
        exact h
      · simp only [hf, if_false, BuilderState.switch_to_block,
          Bool.false_eq_true, BuilderState.ins_jump]
        exact blocksNMT_appendInst _ _ h (Bool.of_not_eq_true hf)
    | none =>
      simp only [hlook, BuilderState.create_block]
      by_cases hf : ({ c.builder with blocks := c.builder.blocks ++ [[]] }
          : BuilderState).is_filled
      · simp only [hf, if_true, BuilderState.switch_to_block]
        exact noMidTermAll_snoc_nil _ h
      · simp only [hf, if_false, Bool.false_eq_true,
          BuilderState.switch_to_block, BuilderState.ins_jump]
        exact blocksNMT_appendInst _ _ (noMidTermAll_snoc_nil _ h)
          (Bool.of_not_eq_true hf)

theorem add_instruction_preserves (c : FunctionCompiler) (i : Instruction)
    (c' : FunctionCompiler) (hf : c.builder.is_filled = false)
    (h : noMidTermAll c.builder.blocks)
    (hok : add_instruction c i = .ok c') :
    noMidTermAll c'.builder.blocks := by
  cases i with
  | JumpIfFalse t =>
    cases hs : c.stack with
    | nil => simp [add_instruction, hs] at hok
    | cons cond rest =>
      cases hty : cond.ty with
      | Float => simp [add_instruction, hs, boolean_val, hty] at hok
      | Int =>
        simp only [add_instruction, hs, boolean_val, hty] at hok
        cases hok
        exact blocksNMT_appendInst _ _
          (noMidTermAll_snoc_nil _
            (blocksNMT_appendInst _ _ (noMidTermAll_snoc_nil _ h)
              (unfilled_create _ hf)))
          (unfilled_create _ (unfilled_appendInst _ _ (by rfl)))
  | Jump t =>
    simp only [add_instruction] at hok
    cases hok
    exact blocksNMT_appendInst _ _ (noMidTermAll_snoc_nil _ h)
      (unfilled_create _ hf)
  | LoadName name scope =>
    cases scope with
    | Local =>
      cases hlook : assocLookup c.vars name with
      | none => simp [add_instruction, hlook] at hok
      | some loc =>
        simp only [add_instruction, hlook] at hok
        cases hok
        exact h
    | NonLocal => exact Except.noConfusion hok
    | Global => exact Except.noConfusion hok
    | Free => exact Except.noConfusion hok
  | StoreName name scope =>
    cases scope with
    | Local =>
      cases hs : c.stack with
      | nil => simp [add_instruction, hs] at hok
      | cons val rest =>
        simp only [add_instruction, hs] at hok
        unfold store_variable at hok
        cases hlook : assocLookup c.vars name with
        | none =>
          rw [hlook] at hok
          simp only [Except.ok.injEq] at hok
          subst hok
          exact h
        | some loc =>
          rw [hlook] at hok
          by_cases hty : val.ty = loc.ty
          · simp [hty] at hok
            subst hok
            exact h
          · simp [hty] at hok
    | NonLocal => exact Except.noConfusion hok
    | Global => exact Except.noConfusion hok
    | Free => exact Except.noConfusion hok
  | LoadConstInt v =>
    revert hok
    simp only [add_instruction]
    split
    · intro hok
      cases hok
      exact blocksNMT_appendInst _ _ h hf
    · intro hok
      exact Except.noConfusion hok
  | LoadConstFloat =>
    simp only [add_instruction] at hok
    cases hok
    exact blocksNMT_appendInst _ _ h hf
  | ReturnValue =>
    cases hs : c.stack with
    | nil => simp [add_instruction, hs] at hok
    | cons val rest =>
      cases hret : c.sig.ret with
      | some ty =>
        by_cases hty : val.ty = ty
        · simp [add_instruction, hs, hret, hty] at hok
          subst hok
          exact blocksNMT_appendInst _ _ h hf
        · simp [add_instruction, hs, hret, hty] at hok
      | none =>
        simp only [add_instruction, hs, hret] at hok
        cases hok
        exact blocksNMT_appendInst _ _ h hf
  | CompareOperation op =>
    cases hs : c.stack with
    | nil => simp [add_instruction, hs] at hok
    | cons vb s2 =>
      cases s2 with
      | nil => simp [add_instruction, hs] at hok
      | cons va rest =>
        cases hop : intCmpCC op <;> cases hta : va.ty <;> cases htb : vb.ty <;>
          simp only [add_instruction, hs, hta, htb, hop] at hok <;>
          cases hok <;>
          exact blocksNMT_appendInst _ _ h hf
  | BinaryOperation op =>
    cases hs : c.stack with
    | nil => simp [add_instruction, hs] at hok
    | cons vb s2 =>
      cases s2 with
      | nil => simp [add_instruction, hs] at hok
      | cons va rest =>
        cases hta : va.ty <;> cases htb : vb.ty <;> cases op <;>
          simp only [add_instruction, hs, hta, htb] at hok <;>
          cases hok <;>
          first
            | exact blocksNMT_appendInst _ _
                (blocksNMT_appendInst _ _ h hf) (unfilled_appendInst _ _ (by rfl))
            | exact blocksNMT_appendInst _ _ h hf
  | Other => exact Except.noConfusion hok

theorem compileStep_preserves (c : FunctionCompiler)
    (lm : List (Nat × Nat)) (off : Nat) (i : Instruction)
    (c' : FunctionCompiler) (h : noMidTermAll c.builder.blocks)
    (hok : compileStep c lm off i = .ok c') :
    noMidTermAll c'.builder.blocks := by
  unfold compileStep at hok
  have h1 : noMidTermAll (processLabel c lm off).builder.blocks :=
    processLabel_preserves c lm off h
  cases hfb : (processLabel c lm off).builder.is_filled
  · rw [hfb] at hok
    simp only [Bool.false_eq_true, if_false] at hok
    exact add_instruction_preserves _ _ _ hfb h1 hok
  · rw [hfb] at hok
    simp only [if_true] at hok
    cases hok
    exact h1

theorem compileFrom_preserves (instrs : List Instruction) :
    ∀ (c : FunctionCompiler) (lm : List (Nat × Nat)) (off : Nat)
      (c' : FunctionCompiler), noMidTermAll c.builder.blocks →
      compileFrom c lm off instrs = .ok c' →
      noMidTermAll c'.builder.blocks := by
  induction instrs with
  | nil =>
    intro c lm off c' h hok
    simp only [compileFrom, Except.ok.injEq] at hok
    subst hok
    exact h
  | cons i rest ih =>
    intro c lm off c' h hok
    simp only [compileFrom] at hok
    cases hstep : compileStep c lm off i with
    | error e =>
      rw [hstep] at hok
      exact Except.noConfusion hok
    | ok c1 =>
      rw [hstep] at hok
      exact ih c1 lm (off + 1) c'
        (compileStep_preserves c lm off i c1 h hstep) hok

theorem is_filled_snoc (b : BuilderState)
    (hcur : b.cur < b.blocks.length) :
    ({ b with blocks := b.blocks ++ [[]] } : BuilderState).is_filled =
      b.is_filled := by
  unfold BuilderState.is_filled BuilderState.curBlock
  simp only [List.getD_eq_getElem?_getD]
  rw [getD_append_lt _ _ _ _ hcur]
/-- C3 (amended): for every accepted stream, every block of the
produced graph has a terminator at most as its final instruction — no
instructions after a terminator and no double terminators; after a
terminator the scan skips instructions until the next labeled offset
(a filled current block makes the step a no-op); and at a labeled
offset a fallthrough jump into the label's block is appended to the
current block exactly when it is not yet terminated.  However a block
may be left with no terminator at all (see the counterexample), so the
claim's "exactly one terminator" does not hold of every block. -/
theorem c3_amended_block_discipline :
    (∀ (c0 : FunctionCompiler) (code : CodeObject) (c : FunctionCompiler),
      noMidTermAll c0.builder.blocks → compile c0 code = .ok c →
      noMidTermAll c.builder.blocks) ∧
    (∀ (c : FunctionCompiler) (lm : List (Nat × Nat)) (off : Nat)
        (i : Instruction),
      offsetToLabel lm off = none → c.builder.is_filled = true →
      compileStep c lm off i = .ok c) ∧
    (∀ (c : FunctionCompiler) (lm : List (Nat × Nat)) (off label : Nat),
      offsetToLabel lm off = some label →
      c.builder.cur < c.builder.blocks.length →
      (c.builder.is_filled = true →
        (processLabel c lm off).builder.blocks.getD c.builder.cur [] =
          c.builder.curBlock) ∧
      (c.builder.is_filled = false →
        ∃ tgt,
          (processLabel c lm off).builder.blocks.getD c.builder.cur [] =
            c.builder.curBlock ++ [.jump tgt])) := by
  refine ⟨?_, ?_, ?_⟩
  · intro c0 code c h hok
    exact compileFrom_preserves code.instructions c0 code.label_map 0 c h hok
  · intro c lm off i hoff hf
    simp [compileStep, processLabel, hoff, hf]
  · intro c lm off label hoff hcur
    constructor
    · intro hf
      unfold processLabel
      rw [hoff]
      cases hlook : assocLookup c.label_to_block label with
      | some b =>
        simp only [hlook, hf, if_true, BuilderState.switch_to_block]
        rfl
      | none =>
        simp only [hlook, BuilderState.create_block]
        rw [is_filled_snoc c.builder hcur, hf, if_pos rfl]
        simp only [BuilderState.switch_to_block, BuilderState.curBlock,
          List.getD_eq_getElem?_getD]
        exact getD_append_lt _ _ _ _ hcur
    · intro hf
      unfold processLabel
      rw [hoff]
      cases hlook : assocLookup c.label_to_block label with
      | some b =>
        refine ⟨b, ?_⟩
        simp only [hlook, hf, Bool.false_eq_true, if_false,
          BuilderState.switch_to_block, BuilderState.ins_jump,
          BuilderState.appendInst, List.getD_eq_getElem?_getD]
        rw [getD_set_self _ _ _ _ hcur]
      | none =>
        refine ⟨c.builder.blocks.length, ?_⟩
        simp only [hlook, BuilderState.create_block]
        rw [is_filled_snoc c.builder hcur, hf,
          if_neg (by exact Bool.false_ne_true)]
        simp only [BuilderState.switch_to_block, BuilderState.ins_jump,
          BuilderState.appendInst, List.getD_eq_getElem?_getD]
        rw [getD_set_self _ _ _ _ (by simp; omega)]
        simp only [BuilderState.curBlock, List.getD_eq_getElem?_getD]
        rw [getD_append_lt _ _ _ _ hcur]
/-- C3 counterexample: the stream consisting of a single integer
constant load is accepted by compile, yet the one block of the produced
graph ends without any terminator — refuting the claim that every block
of an accepted stream's graph has exactly one terminator. -/
theorem c3_unterminated_block_accepted :
    (compile FunctionCompiler.init ⟨[.LoadConstInt 7], []⟩).map
        (fun c => c.builder.blocks.map properlyTerminated) =
      .ok [false] := rfl
/-- Witness for C3 (amended): the accepted stream loading 2 and
returning it yields a graph whose blocks have terminators only in final
position. -/
theorem c3_amended_block_discipline_witness :
    noMidTermAll [[ClifInst.iconst 2, ClifInst.return_ 0]] :=
  c3_amended_block_discipline.1 FunctionCompiler.init
    ⟨[.LoadConstInt 2, .ReturnValue], []⟩ _
    (by
      intro blk hb
      rcases List.mem_singleton.mp hb with rfl
      rfl)
    rfl
